import Mathlib

/-!
Shallow embedding of the `twenty_migration` repository (three Python files:
`main.py`, `apply_twenty_schema.py`, `delete_twenty_object.py`) and proofs
about its reconciliation logic.  HTTP calls are modelled by explicit remote
state passing plus a log of issued gateway calls; fallible code returns
`Except`.  Python strings are modelled as Lean `String` with ASCII-only
case mapping.
-/

namespace Twenty

/-! ### Character-level helpers (ASCII model of Python string methods) -/

/-- A lowercase ASCII letter or an ASCII digit, i.e. the character class
kept by the regex in `slugify` after lowercasing. -/
def isLowerAlnumDigit (c : Char) : Bool :=
  (97 ≤ c.toNat && c.toNat ≤ 122) || (48 ≤ c.toNat && c.toNat ≤ 57)

/-- Any ASCII letter or digit. -/
def isAsciiAlnum (c : Char) : Bool :=
  isLowerAlnumDigit c || (65 ≤ c.toNat && c.toNat ≤ 90)

/-- ASCII lowercase of one character (model of Python `str.lower`). -/
def asciiLower (c : Char) : Char :=
  if 65 ≤ c.toNat && c.toNat ≤ 90 then Char.ofNat (c.toNat + 32) else c

/-- ASCII uppercase of one character. -/
def asciiUpper (c : Char) : Char :=
  if 97 ≤ c.toNat && c.toNat ≤ 122 then Char.ofNat (c.toNat - 32) else c

/-- Strip leading and trailing whitespace from a character list
(model of Python `str.strip()`). -/
def stripWsL (l : List Char) : List Char :=
  ((l.dropWhile Char.isWhitespace).reverse.dropWhile Char.isWhitespace).reverse

/-- Model of Python `str.strip()` on strings. -/
def pyStrip (s : String) : String :=
  String.mk (stripWsL s.data)

/-- Model of Python `str.lower()` on strings (ASCII). -/
def pyLower (s : String) : String :=
  String.mk (s.data.map asciiLower)

/-! ### `main.py`: `slugify` -/

/-- Replace every character that is not `[a-z0-9]` by an underscore
(first half of `re.sub(r"[^a-z0-9]+", "_", s)`). -/
def mapNonAlnum (l : List Char) : List Char :=
  l.map (fun c => if isLowerAlnumDigit c then c else '_')

/-- Collapse every run of consecutive underscores to a single underscore.
`collapseU (mapNonAlnum l)` equals `re.sub(r"[^a-z0-9]+", "_", l)`, since a
maximal run of non-alphanumeric characters becomes one underscore; applied
again it is `re.sub(r"_+", "_", ...)`. -/
def collapseU : List Char → List Char
  | [] => []
  | [c] => [c]
  | a :: b :: rest =>
    if a = '_' && b = '_' then collapseU (b :: rest)
    else a :: collapseU (b :: rest)

/-- Remove leading and trailing underscores (Python `str.strip("_")`). -/
def trimU (l : List Char) : List Char :=
  ((l.dropWhile (fun c => c = '_')).reverse.dropWhile (fun c => c = '_')).reverse

/-- The character list produced by the body of `slugify` before the
emptiness / leading-digit checks:
`s.strip().lower()`, then the two `re.sub` passes, then `.strip("_")`. -/
def slugifyCore (s : String) : List Char :=
  trimU (collapseU (collapseU (mapNonAlnum ((stripWsL s.data).map asciiLower))))

/-- `main.py` `slugify`: raises `ValueError` on an empty result, and
prefixes `f_` when the result starts with a digit. -/
def slugify (s : String) : Except Unit String :=
  match slugifyCore s with
  | [] => .error ()
  | c :: rest =>
    if c.isDigit then .ok ("f_" ++ String.mk (c :: rest))
    else .ok (String.mk (c :: rest))

/-! ### `main.py`: type inference (`infer_twenty_type`) -/

/-- Recognizer for the body of a Python float literal after an optional
sign: digits, optional fractional part, optional exponent. -/
def expTail (l : List Char) : Bool :=
  let l1 := match l with
    | c :: rest => if c = '+' || c = '-' then rest else c :: rest
    | [] => []
  !l1.isEmpty && l1.all Char.isDigit

/-- Mantissa (and optional exponent) of a float literal. -/
def mantissaTail (l : List Char) : Bool :=
  let p := l.span Char.isDigit
  match p.2 with
  | [] => !p.1.isEmpty
  | '.' :: r2 =>
    let q := r2.span Char.isDigit
    if p.1.isEmpty && q.1.isEmpty then false
    else match q.2 with
      | [] => true
      | c :: r4 => (c = 'e' || c = 'E') && expTail r4
  | c :: r2 => (c = 'e' || c = 'E') && !p.1.isEmpty && expTail r2

/-- The named floats accepted by Python `float()`. -/
def floatNamed (l : List Char) : Bool :=
  let w := String.mk (l.map asciiLower)
  w = "inf" || w = "infinity" || w = "nan"

/-- Drop one optional leading sign. -/
def dropSign (l : List Char) : List Char :=
  match l with
  | c :: rest => if c = '+' || c = '-' then rest else c :: rest
  | [] => []

/-- `is_floatlike` from `infer_twenty_type`: does `float(x)` succeed?
Modelled as a recognizer for Python float syntax (ASCII, no underscore
digit grouping). -/
def is_floatlike (s : String) : Bool :=
  let l := stripWsL s.data
  !l.isEmpty && (floatNamed (dropSign l) || mantissaTail (dropSign l))

/-- Numeric value of a digit string. -/
def digitsToNat (l : List Char) : Nat :=
  l.foldl (fun a c => 10 * a + (c.toNat - 48)) 0

/-- Signed exponent value. -/
def expValue (l : List Char) : Int :=
  match l with
  | '-' :: r => - (digitsToNat r : Int)
  | '+' :: r => (digitsToNat r : Int)
  | r => (digitsToNat r : Int)

/-- Is `D * 10 ^ e` an integer, for a digit string `D` and exponent `e`? -/
def decideIntScale (digits : List Char) (e : Int) : Bool :=
  if 0 ≤ e then true else digitsToNat digits % 10 ^ e.natAbs == 0

/-- Integrality of the value of a recognized finite float literal body
(model of `float(x).is_integer()`; double rounding is not modelled, which
cannot change `infer_twenty_type`'s output since both numeric branches
return the same type). -/
def intValued (l1 : List Char) : Bool :=
  let p := l1.span Char.isDigit
  match p.2 with
  | [] => true
  | '.' :: r2 =>
    let q := r2.span Char.isDigit
    let e : Int := match q.2 with
      | _ :: r4 => expValue r4
      | [] => 0
    decideIntScale (p.1 ++ q.1) (e - (q.1.length : Int))
  | _ :: r2 => decideIntScale p.1 (expValue r2)

/-- `is_intlike` from `infer_twenty_type`: `float(x)` succeeds and the
value is an integer; `inf`/`nan` are not integers. -/
def is_intlike (s : String) : Bool :=
  is_floatlike s &&
    (let l1 := dropSign (stripWsL s.data)
     !floatNamed l1 && intValued l1)

/-- The fixed boolean vocabulary of `infer_twenty_type`. -/
def boolVocab : List String := ["true", "false", "0", "1", "yes", "no"]

/-- `main.py` `infer_twenty_type`.  A column is a list of optional cell
values (`none` is a missing/NaN cell, dropped by `series.dropna()`); the
column name is `series.name` (`none` when unnamed). -/
def infer_twenty_type (values : List (Option String)) (colName : Option String) : String :=
  let s := values.filterMap id
  if s.isEmpty then "TEXT"
  else if s.all (fun v => boolVocab.contains (pyLower v)) then "BOOLEAN"
  else if s.all is_intlike then "NUMBER"
  else if s.all is_floatlike then "NUMBER"
  else if (match colName with
           | some n => !n.isEmpty && ["external_id", "id", "uuid"].contains (pyLower n)
           | none => false) then "TEXT"
  else "TEXT"

/-! ### Remote state model shared by the metadata scripts -/

/-- A materialized remote object (what the metadata gateway returns). -/
structure RemoteObject where
  id : Nat
  nameSingular : String
deriving DecidableEq, Repr

/-- A materialized remote field. -/
structure RemoteField where
  id : Nat
  name : String
  objectMetadataId : Nat
deriving DecidableEq, Repr

/-- The remote metadata store: its objects and fields, plus a counter
supplying fresh ids for created entities. -/
structure RemoteState where
  objects : List RemoteObject
  fields : List RemoteField
  nextId : Nat
deriving DecidableEq, Repr

/-- A mutating gateway call issued by the schema scripts. -/
inductive GCall where
  | createObject (nameSingular : String)
  | createField (objectMetadataId : Nat) (name : String) (fieldType : String)
deriving DecidableEq, Repr

/-! ### `apply_twenty_schema.py`: declarations, `snake_to_camel`,
`list_fields`, `apply_schema` -/

/-- `str.title()` on one snake-case component (ASCII). -/
def titleCase (s : String) : String :=
  match s.data with
  | [] => ""
  | c :: rest => String.mk (asciiUpper c :: rest.map asciiLower)

/-- Python `str.split('_')` on a character list: maximal groups between
underscores, keeping empty groups. -/
def splitU : List Char → List (List Char)
  | [] => [[]]
  | c :: rest =>
    if c = '_' then [] :: splitU rest
    else
      match splitU rest with
      | [] => [[c]]
      | g :: gs => (c :: g) :: gs

/-- `apply_twenty_schema.py` `snake_to_camel`:
`components[0] + ''.join(x.title() for x in components[1:])`. -/
def snake_to_camel (s : String) : String :=
  match (splitU s.data).map String.mk with
  | [] => ""
  | c :: cs => c ++ String.join (cs.map titleCase)

/-- The field-name conversion done in `create_field` and in the existence
check of `apply_schema`: camelize only when the name contains `_`
(Python `'_' in field_name`). -/
def camelFieldName (s : String) : String :=
  if s.data.any (fun c => c = '_') then snake_to_camel s else s

/-- A field declaration from the YAML schema (`f` in the source); optional
keys are `Option`s, `settings`/`options` keep Python truthiness (an empty
dict/list is falsy). -/
structure FieldDecl where
  name : String
  type : String
  label : Option String := none
  description : Option String := none
  isNullable : Option Bool := none
  icon : Option String := none
  defaultValue : Option String := none
  settings : Option (List (String × String)) := none
  options : Option (List String) := none
deriving DecidableEq, Repr

/-- An object declaration from the YAML schema. -/
structure ObjectDecl where
  nameSingular : String
  namePlural : String
  labelSingular : String
  labelPlural : String
  description : Option String := none
  icon : Option String := none
  fields : List FieldDecl := []
deriving DecidableEq, Repr

/-- The parsed YAML document. -/
structure Schema where
  objects : List ObjectDecl
deriving DecidableEq, Repr

/-- `find_object_by_singular` (and `main.py` `find_object`): first remote
object with the given `nameSingular`. -/
def find_object_by_singular (n : String) (st : RemoteState) : Option RemoteObject :=
  st.objects.find? (fun o => o.nameSingular == n)

/-- `apply_twenty_schema.py` `list_fields`: the gateway returns the full
field listing; the function filters client-side by `objectMetadataId`. -/
def list_fields (object_metadata_id : Nat) (allFields : List RemoteField) : List RemoteField :=
  allFields.filter (fun f => f.objectMetadataId == object_metadata_id)

/-- The names of the remote fields belonging to one object, as collected
into `current_names` by `apply_schema`. -/
def fieldNames (oid : Nat) (st : RemoteState) : List String :=
  (list_fields oid st.fields).map (fun f => f.name)

/-- Effect of a successful `POST /rest/metadata/fields`: the store gains a
field with a fresh id. -/
def addField (oid : Nat) (name : String) (st : RemoteState) : RemoteState :=
  { st with fields := st.fields ++ [⟨st.nextId, name, oid⟩], nextId := st.nextId + 1 }

/-- Effect of a successful `POST /rest/metadata/objects`. -/
def addObject (o : ObjectDecl) (st : RemoteState) : RemoteState :=
  { st with objects := st.objects ++ [⟨st.nextId, o.nameSingular⟩], nextId := st.nextId + 1 }

/-- The per-object field loop of `apply_schema`.  `names` is the
`current_names` set, computed once before the loop and not refreshed after
creations (as in the source).  Creation stores the camelized name, as
`create_field` does. -/
def ensureFieldsLoop (oid : Nat) (names : List String) :
    List FieldDecl → RemoteState → RemoteState × List GCall
  | [], st => (st, [])
  | f :: fs, st =>
    if f.name ∈ names ∨ camelFieldName f.name ∈ names then
      ensureFieldsLoop oid names fs st
    else
      let st' := addField oid (camelFieldName f.name) st
      let r := ensureFieldsLoop oid names fs st'
      (r.1, GCall.createField oid (camelFieldName f.name) f.type :: r.2)

/-- Field reconciliation for one resolved object id. -/
def ensureFieldsForObject (oid : Nat) (decls : List FieldDecl) (st : RemoteState) :
    RemoteState × List GCall :=
  ensureFieldsLoop oid (fieldNames oid st) decls st

/-- One iteration of the object loop in `apply_schema`: find or create the
object (re-finding after creation; a creation that does not appear in the
listing is a fatal error), then ensure its fields. -/
def stepObject (o : ObjectDecl) (st : RemoteState) :
    Except Unit (RemoteState × List GCall) :=
  match find_object_by_singular o.nameSingular st with
  | some robj => .ok (ensureFieldsForObject robj.id o.fields st)
  | none =>
    match find_object_by_singular o.nameSingular (addObject o st) with
    | some robj =>
      .ok ((ensureFieldsForObject robj.id o.fields (addObject o st)).1,
        GCall.createObject o.nameSingular ::
          (ensureFieldsForObject robj.id o.fields (addObject o st)).2)
    | none => .error ()

/-- The object loop of `apply_schema`. -/
def runObjects : List ObjectDecl → RemoteState → Except Unit (RemoteState × List GCall)
  | [], st => .ok (st, [])
  | o :: os, st =>
    match stepObject o st with
    | .error e => .error e
    | .ok r1 =>
      match runObjects os r1.1 with
      | .error e => .error e
      | .ok r2 => .ok (r2.1, r1.2 ++ r2.2)

/-- `apply_twenty_schema.py` `apply_schema`: rejects an empty `objects:`
list, then reconciles each declared object.  Returns the final remote
state and the list of mutating gateway calls issued. -/
def apply_schema (schema : Schema) (st : RemoteState) :
    Except Unit (RemoteState × List GCall) :=
  if schema.objects.isEmpty then .error () else runObjects schema.objects st

/-! ### `apply_twenty_schema.py`: `create_field` payload tiers -/

/-- A `POST /rest/metadata/fields` body; absent JSON keys are `none`. -/
structure FieldPayload where
  type : String
  objectMetadataId : Nat
  name : String
  label : String
  description : Option String := none
  isNullable : Option Bool := none
  icon : Option String := none
  defaultValue : Option String := none
  settings : Option (List (String × String)) := none
  options : Option (List String) := none
deriving DecidableEq, Repr

/-- The first payload built by `create_field`: required keys always,
optional keys only when meaningfully present (Python truthiness for
`description`, `icon`, `settings`, `options`; key presence for
`isNullable`; non-`None` presence for `defaultValue`). -/
def build_payload (oid : Nat) (f : FieldDecl) : FieldPayload :=
  { type := f.type
    objectMetadataId := oid
    name := camelFieldName f.name
    label := f.label.getD f.name
    description := match f.description with
      | some d => if d = "" then none else some d
      | none => none
    isNullable := f.isNullable
    icon := match f.icon with
      | some i => if i = "" then none else some i
      | none => none
    defaultValue := f.defaultValue
    settings := match f.settings with
      | some l => if l = [] then none else some l
      | none => none
    options := match f.options with
      | some l => if l = [] then none else some l
      | none => none }

/-- The second tier: the same payload with the `icon` key removed. -/
def payload_without_icon (p : FieldPayload) : FieldPayload :=
  { p with icon := none }

/-- The third tier: the absolute minimal payload. -/
def minimal_payload (oid : Nat) (f : FieldDecl) : FieldPayload :=
  { type := f.type
    objectMetadataId := oid
    name := camelFieldName f.name
    label := f.label.getD f.name }

/-- `apply_twenty_schema.py` `create_field` with an explicit gateway
success oracle `ok`: try the built payload; on failure retry without
`icon` when an icon was present; on failure retry with the minimal
payload; a minimal-tier failure propagates.  Returns the outcome and the
list of POST bodies issued, in order. -/
def create_field (ok : FieldPayload → Bool) (oid : Nat) (f : FieldDecl) :
    Except Unit FieldPayload × List FieldPayload :=
  let p1 := build_payload oid f
  if ok p1 then (.ok p1, [p1])
  else if p1.icon.isSome then
    let p2 := payload_without_icon p1
    if ok p2 then (.ok p2, [p1, p2])
    else
      let p3 := minimal_payload oid f
      if ok p3 then (.ok p3, [p1, p2, p3]) else (.error (), [p1, p2, p3])
  else
    let p3 := minimal_payload oid f
    if ok p3 then (.ok p3, [p1, p3]) else (.error (), [p1, p3])

/-! ### `main.py`: `ensure_fields` (CSV path) -/

/-- `main.py` `get_fields_for_object`: the gateway is asked to filter by
`objectMetadataId`; the fields of the given object are returned. -/
def get_fields_for_object (oid : Nat) (allFields : List RemoteField) : List RemoteField :=
  allFields.filter (fun f => f.objectMetadataId == oid)

/-- The column loop of `ensure_fields`.  `names` is `existing_names`,
computed once before the loop; a column is modelled by its name and (via
`df`) its cell values; field creation uses the slugified name verbatim and
the inferred type. -/
def ensureFieldsCsvLoop (oid : Nat) (names : List String)
    (df : String → List (Option String)) :
    List String → RemoteState → Except Unit (RemoteState × List GCall)
  | [], st => .ok (st, [])
  | col :: cs, st =>
    match slugify col with
    | .error _ => .error ()
    | .ok fn =>
      if fn ∈ names then ensureFieldsCsvLoop oid names df cs st
      else
        let ty := infer_twenty_type (df col) (some col)
        match ensureFieldsCsvLoop oid names df cs (addField oid fn st) with
        | .error _ => .error ()
        | .ok r => .ok (r.1, GCall.createField oid fn ty :: r.2)

/-- `main.py` `ensure_fields`. -/
def ensure_fields (oid : Nat) (cols : List String)
    (df : String → List (Option String)) (st : RemoteState) :
    Except Unit (RemoteState × List GCall) :=
  ensureFieldsCsvLoop oid ((get_fields_for_object oid st.fields).map (fun f => f.name))
    df cols st

/-! ### `main.py`: record upsert -/

/-- A record returned by the record gateway; only its `id` matters to
`upsert_record` (`none` models a missing or null `id`). -/
structure RRecord where
  id : Option String
deriving DecidableEq, Repr

/-- A record-gateway call issued by `upsert_record`. -/
inductive UCall where
  | query (namePlural : String) (field : String) (value : String)
  | createRec (row : List (String × Option String))
  | updateRec (id : String) (row : List (String × Option String))
deriving DecidableEq, Repr

/-- The errors `upsert_record` can raise: `badRow` is the `ValueError` for
a missing external id, `noId` the `RuntimeError` for a matched record
without id. -/
inductive UErr where
  | badRow
  | noId
deriving DecidableEq, Repr

/-- `row.get(k)`: `none` when the key is absent, `some none` for an
explicit null cell, `some (some v)` for a value. -/
def rowLookup (row : List (String × Option String)) (k : String) :
    Option (Option String) :=
  (row.find? (fun p => p.1 == k)).map (fun p => p.2)

/-- `str(row.get(external_id_field) or "")`: a missing key or a null value
collapses to the empty string. -/
def extRaw (row : List (String × Option String)) (k : String) : String :=
  match rowLookup row k with
  | none => ""
  | some none => ""
  | some (some v) => v

/-- `main.py` `upsert_record` with the query result supplied by a gateway
function `gw namePlural field value`.  Returns the outcome and the list of
gateway calls issued, in order. -/
def upsert_record (gw : String → String → String → List RRecord)
    (namePlural extField : String) (row : List (String × Option String)) :
    Except UErr Unit × List UCall :=
  let ext := pyStrip (extRaw row extField)
  if ext = "" then (.error .badRow, [])
  else
    match gw namePlural extField ext with
    | [] => (.ok (), [UCall.query namePlural extField ext, UCall.createRec row])
    | rec :: _ =>
      match rec.id with
      | some i =>
        if i = "" then (.error .noId, [UCall.query namePlural extField ext])
        else (.ok (), [UCall.query namePlural extField ext, UCall.updateRec i row])
      | none => (.error .noId, [UCall.query namePlural extField ext])

/-! ### `delete_twenty_object.py`: object lifecycle guard -/

/-- A remote object as seen by the delete script; `isCustom` may be
absent. -/
structure DObject where
  id : Nat
  nameSingular : String
  isCustom : Option Bool
deriving DecidableEq, Repr

/-- A mutating metadata call issued by the delete script. -/
inductive DCall where
  | deleteObj (id : Nat)
  | patchInactive (id : Nat)
deriving DecidableEq, Repr

/-- Outcome of the delete script's `main`. -/
inductive DResult where
  | notFound
  | refused
  | deleted
  | deactivated
  | failed
deriving DecidableEq, Repr

/-- `delete_twenty_object.py` `find_object`. -/
def find_object (n : String) (objs : List DObject) : Option DObject :=
  objs.find? (fun o => o.nameSingular == n)

/-- The decision logic of `delete_twenty_object.py` `main` after argument
parsing, with success oracles for the DELETE and PATCH endpoints.  A
missing object is a no-op; a non-custom object (`isCustom` absent or not
`True`) is refused before any mutating call; otherwise `hard` chooses
DELETE, else PATCH `isActive=false`; a gateway failure propagates after
the one call. -/
def delete_main (okDelete okPatch : Nat → Bool) (objs : List DObject)
    (n : String) (hard : Bool) : DResult × List DCall :=
  match find_object n objs with
  | none => (.notFound, [])
  | some obj =>
    if obj.isCustom = some true then
      if hard then
        if okDelete obj.id then (.deleted, [DCall.deleteObj obj.id])
        else (.failed, [DCall.deleteObj obj.id])
      else
        if okPatch obj.id then (.deactivated, [DCall.patchInactive obj.id])
        else (.failed, [DCall.patchInactive obj.id])
    else (.refused, [])

/-! ### Derived notions used by the verification -/

/-- The first payload tier tried by `create_field`. -/
def tier1 (oid : Nat) (f : FieldDecl) : FieldPayload := build_payload oid f

/-- The second payload tier: the first with `icon` removed. -/
def tier2 (oid : Nat) (f : FieldDecl) : FieldPayload :=
  payload_without_icon (build_payload oid f)

/-- The third payload tier: the minimal payload. -/
def tier3 (oid : Nat) (f : FieldDecl) : FieldPayload := minimal_payload oid f

/-- The remote store only ever grows during a reconciliation run: objects
and fields are appended, never removed or edited. -/
def growsTo (st st' : RemoteState) : Prop :=
  (∃ t, st'.objects = st.objects ++ t) ∧ (∃ t, st'.fields = st.fields ++ t)

/-- An object declaration is satisfied by a remote state when the object
resolves by `nameSingular` and every declared field already exists under
its raw or camelized spelling. -/
def objSatisfied (o : ObjectDecl) (st : RemoteState) : Prop :=
  ∃ robj, find_object_by_singular o.nameSingular st = some robj ∧
    ∀ f ∈ o.fields,
      f.name ∈ fieldNames robj.id st ∨ camelFieldName f.name ∈ fieldNames robj.id st

/-- No two consecutive underscores. -/
def noAdjacentUnderscores (l : List Char) : Prop :=
  List.Chain' (fun a b => ¬(a = '_' ∧ b = '_')) l

/-- A one-object, one-field desired schema used as a concrete witness. -/
def c1Schema : Schema :=
  ⟨[{ nameSingular := "deal", namePlural := "deals", labelSingular := "Deal",
      labelPlural := "Deals", fields := [{ name := "amount", type := "NUMBER" }] }]⟩

/-- The empty remote store. -/
def c1State0 : RemoteState := ⟨[], [], 0⟩

/-- The remote store after reconciling `c1Schema` against `c1State0`. -/
def c1State1 : RemoteState := ⟨[⟨0, "deal"⟩], [⟨1, "amount", 0⟩], 2⟩

/-- A schema declaring the field in camel style (`dealValue`). -/
def c3Schema : Schema :=
  ⟨[{ nameSingular := "deal", namePlural := "deals", labelSingular := "Deal",
      labelPlural := "Deals", fields := [{ name := "dealValue", type := "NUMBER" }] }]⟩

/-- A remote store that already has the word-separated spelling
`deal_value` on the `deal` object. -/
def c3State : RemoteState := ⟨[⟨0, "deal"⟩], [⟨1, "deal_value", 0⟩], 2⟩

/-- The store `apply_schema` leaves behind on `c3Schema`/`c3State`: both
spellings now coexist. -/
def c3StateAfter : RemoteState :=
  ⟨[⟨0, "deal"⟩], [⟨1, "deal_value", 0⟩, ⟨2, "dealValue", 0⟩], 3⟩

/-! ## Theorems -/

/-! ### Helper lemmas about state growth during reconciliation -/

theorem growsTo_refl (st : RemoteState) : growsTo st st :=
  ⟨⟨[], by simp⟩, ⟨[], by simp⟩⟩

theorem growsTo_trans {a b c : RemoteState} (h1 : growsTo a b) (h2 : growsTo b c) :
    growsTo a c := by
  obtain ⟨⟨t1, ht1⟩, ⟨t2, ht2⟩⟩ := h1
  obtain ⟨⟨u1, hu1⟩, ⟨u2, hu2⟩⟩ := h2
  exact ⟨⟨t1 ++ u1, by rw [hu1, ht1, List.append_assoc]⟩,
         ⟨t2 ++ u2, by rw [hu2, ht2, List.append_assoc]⟩⟩

theorem growsTo_addField (oid : Nat) (nm : String) (st : RemoteState) :
    growsTo st (addField oid nm st) :=
  ⟨⟨[], by simp [addField]⟩, ⟨[⟨st.nextId, nm, oid⟩], rfl⟩⟩

theorem growsTo_addObject (o : ObjectDecl) (st : RemoteState) :
    growsTo st (addObject o st) :=
  ⟨⟨[⟨st.nextId, o.nameSingular⟩], rfl⟩, ⟨[], by simp [addObject]⟩⟩

theorem fieldNames_grows {st st' : RemoteState} (hg : growsTo st st') (oid : Nat)
    {nm : String} (h : nm ∈ fieldNames oid st) : nm ∈ fieldNames oid st' := by
  obtain ⟨-, ⟨t, ht⟩⟩ := hg
  simp only [fieldNames, list_fields, List.mem_map, List.mem_filter] at h ⊢
  obtain ⟨f, ⟨hf, hoid⟩, hnm⟩ := h
  exact ⟨f, ⟨by rw [ht]; exact List.mem_append_left _ hf, hoid⟩, hnm⟩

theorem find_object_grows {st st' : RemoteState} (hg : growsTo st st') {n : String}
    {r : RemoteObject} (h : find_object_by_singular n st = some r) :
    find_object_by_singular n st' = some r := by
  obtain ⟨⟨t, ht⟩, -⟩ := hg
  unfold find_object_by_singular at h ⊢
  rw [ht, List.find?_append, h]
  rfl

theorem find_object_congr {st st' : RemoteState} (h : st'.objects = st.objects)
    (n : String) : find_object_by_singular n st' = find_object_by_singular n st := by
  unfold find_object_by_singular
  rw [h]

theorem find_object_addObject {o : ObjectDecl} {st : RemoteState}
    (h : find_object_by_singular o.nameSingular st = none) :
    find_object_by_singular o.nameSingular (addObject o st) =
      some ⟨st.nextId, o.nameSingular⟩ := by
  unfold find_object_by_singular at h ⊢
  simp only [addObject]
  rw [List.find?_append, h]
  simp

theorem mem_fieldNames_addField (oid : Nat) (nm : String) (st : RemoteState) :
    nm ∈ fieldNames oid (addField oid nm st) := by
  simp only [fieldNames, list_fields, addField, List.mem_map, List.mem_filter]
  exact ⟨⟨st.nextId, nm, oid⟩, ⟨List.mem_append_right _ (by simp), by simp⟩, rfl⟩

theorem ensureFieldsLoop_objects (oid : Nat) (names : List String)
    (fs : List FieldDecl) (st : RemoteState) :
    (ensureFieldsLoop oid names fs st).1.objects = st.objects := by
  induction fs generalizing st with
  | nil => rfl
  | cons f fs ih =>
    simp only [ensureFieldsLoop]
    split
    · exact ih st
    · exact (ih _).trans rfl

theorem ensureFieldsLoop_grows (oid : Nat) (names : List String)
    (fs : List FieldDecl) (st : RemoteState) :
    growsTo st (ensureFieldsLoop oid names fs st).1 := by
  induction fs generalizing st with
  | nil => exact growsTo_refl st
  | cons f fs ih =>
    simp only [ensureFieldsLoop]
    split
    · exact ih st
    · exact growsTo_trans (growsTo_addField _ _ _) (ih _)

theorem ensureFieldsLoop_skip (oid : Nat) (names : List String)
    (fs : List FieldDecl) (st : RemoteState)
    (h : ∀ f ∈ fs, f.name ∈ names ∨ camelFieldName f.name ∈ names) :
    ensureFieldsLoop oid names fs st = (st, []) := by
  induction fs with
  | nil => rfl
  | cons f fs ih =>
    have hf := h f (List.mem_cons_self f fs)
    simp only [ensureFieldsLoop, if_pos hf]
    exact ih fun g hg => h g (List.mem_cons_of_mem f hg)

theorem ensureFieldsLoop_post (oid : Nat) (names : List String)
    (fs : List FieldDecl) (st : RemoteState)
    (hsub : ∀ nm ∈ names, nm ∈ fieldNames oid st) :
    ∀ f ∈ fs, f.name ∈ fieldNames oid (ensureFieldsLoop oid names fs st).1 ∨
      camelFieldName f.name ∈ fieldNames oid (ensureFieldsLoop oid names fs st).1 := by
  induction fs generalizing st with
  | nil => intro f hf; cases hf
  | cons g gs ih =>
    intro f hf
    simp only [ensureFieldsLoop]
    by_cases hcond : g.name ∈ names ∨ camelFieldName g.name ∈ names
    · rw [if_pos hcond]
      rcases List.mem_cons.mp hf with rfl | hfs
      · rcases hcond with hc | hc
        · exact Or.inl (fieldNames_grows (ensureFieldsLoop_grows oid names gs st) oid
            (hsub _ hc))
        · exact Or.inr (fieldNames_grows (ensureFieldsLoop_grows oid names gs st) oid
            (hsub _ hc))
      · exact ih st hsub f hfs
    · rw [if_neg hcond]
      have hgrow := growsTo_addField oid (camelFieldName g.name) st
      rcases List.mem_cons.mp hf with rfl | hfs
      · exact Or.inr (fieldNames_grows
          (ensureFieldsLoop_grows oid names gs (addField oid (camelFieldName f.name) st))
          oid (mem_fieldNames_addField oid (camelFieldName f.name) st))
      · exact ih _ (fun nm hnm => fieldNames_grows hgrow oid (hsub nm hnm)) f hfs

theorem ensureFieldsForObject_objects (oid : Nat) (decls : List FieldDecl)
    (st : RemoteState) :
    (ensureFieldsForObject oid decls st).1.objects = st.objects :=
  ensureFieldsLoop_objects oid (fieldNames oid st) decls st

theorem ensureFieldsForObject_grows (oid : Nat) (decls : List FieldDecl)
    (st : RemoteState) : growsTo st (ensureFieldsForObject oid decls st).1 :=
  ensureFieldsLoop_grows oid (fieldNames oid st) decls st

theorem ensureFieldsForObject_post (oid : Nat) (decls : List FieldDecl)
    (st : RemoteState) :
    ∀ f ∈ decls, f.name ∈ fieldNames oid (ensureFieldsForObject oid decls st).1 ∨
      camelFieldName f.name ∈ fieldNames oid (ensureFieldsForObject oid decls st).1 :=
  ensureFieldsLoop_post oid (fieldNames oid st) decls st fun _ h => h

theorem ensureFieldsForObject_skip (oid : Nat) (decls : List FieldDecl)
    (st : RemoteState)
    (h : ∀ f ∈ decls,
      f.name ∈ fieldNames oid st ∨ camelFieldName f.name ∈ fieldNames oid st) :
    ensureFieldsForObject oid decls st = (st, []) :=
  ensureFieldsLoop_skip oid (fieldNames oid st) decls st h

theorem stepObject_grows {o : ObjectDecl} {st : RemoteState}
    {r : RemoteState × List GCall} (h : stepObject o st = .ok r) :
    growsTo st r.1 := by
  unfold stepObject at h
  split at h
  · injection h with h1
    subst h1
    exact ensureFieldsForObject_grows _ _ _
  · split at h
    · injection h with h1
      subst h1
      exact growsTo_trans (growsTo_addObject _ _) (ensureFieldsForObject_grows _ _ _)
    · cases h

theorem stepObject_sat {o : ObjectDecl} {st : RemoteState}
    {r : RemoteState × List GCall} (h : stepObject o st = .ok r) :
    objSatisfied o r.1 := by
  unfold stepObject at h
  split at h
  case _ robj hfind =>
    injection h with h1
    subst h1
    refine ⟨robj, ?_, ?_⟩
    · rw [find_object_congr (ensureFieldsForObject_objects _ _ _) o.nameSingular]
      exact hfind
    · exact ensureFieldsForObject_post robj.id o.fields st
  case _ hfind =>
    split at h
    case _ robj hfind2 =>
      injection h with h1
      subst h1
      refine ⟨robj, ?_, ?_⟩
      · rw [find_object_congr (ensureFieldsForObject_objects _ _ _) o.nameSingular]
        exact hfind2
      · exact ensureFieldsForObject_post robj.id o.fields (addObject o st)
    case _ => cases h

theorem objSatisfied_grows {o : ObjectDecl} {st st' : RemoteState}
    (hg : growsTo st st') (h : objSatisfied o st) : objSatisfied o st' := by
  obtain ⟨robj, hfind, hflds⟩ := h
  exact ⟨robj, find_object_grows hg hfind,
    fun f hf => (hflds f hf).imp (fieldNames_grows hg robj.id)
      (fieldNames_grows hg robj.id)⟩

theorem runObjects_ok (os : List ObjectDecl) (st : RemoteState)
    (r : RemoteState × List GCall) (h : runObjects os st = .ok r) :
    growsTo st r.1 ∧ ∀ o ∈ os, objSatisfied o r.1 := by
  induction os generalizing st r with
  | nil =>
    simp only [runObjects] at h
    injection h with h1
    subst h1
    exact ⟨growsTo_refl st, fun o ho => absurd ho (List.not_mem_nil o)⟩
  | cons o os ih =>
    simp only [runObjects] at h
    split at h
    · cases h
    case _ r1 hstep =>
      split at h
      · cases h
      case _ r2 hrun =>
        injection h with h1
        subst h1
        obtain ⟨hg2, hsat2⟩ := ih r1.1 r2 hrun
        refine ⟨growsTo_trans (stepObject_grows hstep) hg2, fun p hp => ?_⟩
        rcases List.mem_cons.mp hp with rfl | hps
        · exact objSatisfied_grows hg2 (stepObject_sat hstep)
        · exact hsat2 p hps

theorem runObjects_skip (os : List ObjectDecl) (st : RemoteState)
    (h : ∀ o ∈ os, objSatisfied o st) : runObjects os st = .ok (st, []) := by
  induction os with
  | nil => rfl
  | cons o os ih =>
    obtain ⟨robj, hfind, hflds⟩ := h o (List.mem_cons_self o os)
    have hstep : stepObject o st = .ok (st, []) := by
      simp only [stepObject, hfind]
      rw [ensureFieldsForObject_skip robj.id o.fields st hflds]
    simp only [runObjects, hstep, ih fun p hp => h p (List.mem_cons_of_mem o hp),
      List.append_nil]

/-! ### Helper lemmas for the CSV field loop of `main.py` -/

theorem csvLoop_grows (oid : Nat) (names : List String)
    (df : String → List (Option String)) (cols : List String) (st : RemoteState)
    (r : RemoteState × List GCall)
    (h : ensureFieldsCsvLoop oid names df cols st = .ok r) : growsTo st r.1 := by
  induction cols generalizing st r with
  | nil =>
    simp only [ensureFieldsCsvLoop] at h
    injection h with h1
    subst h1
    exact growsTo_refl st
  | cons col cs ih =>
    simp only [ensureFieldsCsvLoop] at h
    split at h
    · cases h
    case _ fn hslug =>
      split at h
      · exact ih st r h
      · split at h
        · cases h
        case _ r2 hrun =>
          injection h with h1
          subst h1
          exact growsTo_trans (growsTo_addField _ _ _) (ih _ r2 hrun)

theorem csvLoop_post (oid : Nat) (names : List String)
    (df : String → List (Option String)) (cols : List String) (st : RemoteState)
    (r : RemoteState × List GCall)
    (hsub : ∀ nm ∈ names, nm ∈ fieldNames oid st)
    (h : ensureFieldsCsvLoop oid names df cols st = .ok r) :
    ∀ col ∈ cols, ∃ fn, slugify col = .ok fn ∧ fn ∈ fieldNames oid r.1 := by
  induction cols generalizing st r with
  | nil => intro col hcol; cases hcol
  | cons c cs ih =>
    intro col hcol
    simp only [ensureFieldsCsvLoop] at h
    split at h
    · cases h
    case _ fn hslug =>
      split at h
      case _ hmem =>
        rcases List.mem_cons.mp hcol with rfl | hcs
        · exact ⟨fn, hslug, fieldNames_grows (csvLoop_grows _ _ _ _ _ _ h) oid
            (hsub fn hmem)⟩
        · exact ih st r hsub h col hcs
      case _ hmem =>
        split at h
        · cases h
        case _ r2 hrun =>
          injection h with h1
          subst h1
          have hgrow := growsTo_addField oid fn st
          rcases List.mem_cons.mp hcol with rfl | hcs
          · exact ⟨fn, hslug, fieldNames_grows (csvLoop_grows _ _ _ _ _ _ hrun) oid
              (mem_fieldNames_addField oid fn st)⟩
          · exact ih _ r2 (fun nm hnm => fieldNames_grows hgrow oid (hsub nm hnm))
              hrun col hcs

theorem csvLoop_skip (oid : Nat) (names : List String)
    (df : String → List (Option String)) (cols : List String) (st : RemoteState)
    (h : ∀ col ∈ cols, ∃ fn, slugify col = .ok fn ∧ fn ∈ names) :
    ensureFieldsCsvLoop oid names df cols st = .ok (st, []) := by
  induction cols with
  | nil => rfl
  | cons c cs ih =>
    obtain ⟨fn, hslug, hmem⟩ := h c (List.mem_cons_self c cs)
    simp only [ensureFieldsCsvLoop, hslug, if_pos hmem]
    exact ih fun col hcol => h col (List.mem_cons_of_mem c hcol)

/-- C1: reconciliation is idempotent — if a first run of `apply_schema`
(resp. `ensure_fields`) succeeds, a second run against the same desired
state and the resulting remote state issues zero object-create and zero
field-create calls and leaves the remote state identical. -/
theorem reconciliation_idempotent :
    (∀ (schema : Schema) (st0 st1 : RemoteState) (cs : List GCall),
       apply_schema schema st0 = .ok (st1, cs) →
       apply_schema schema st1 = .ok (st1, [])) ∧
    (∀ (oid : Nat) (cols : List String) (df : String → List (Option String))
       (st0 st1 : RemoteState) (cs : List GCall),
       ensure_fields oid cols df st0 = .ok (st1, cs) →
       ensure_fields oid cols df st1 = .ok (st1, [])) := by
  constructor
  · intro schema st0 st1 cs h
    unfold apply_schema at h ⊢
    by_cases he : schema.objects.isEmpty
    · rw [if_pos he] at h
      exact absurd h (by simp)
    · rw [if_neg he] at h ⊢
      obtain ⟨-, hsat⟩ := runObjects_ok schema.objects st0 (st1, cs) h
      exact runObjects_skip schema.objects st1 hsat
  · intro oid cols df st0 st1 cs h
    unfold ensure_fields at h ⊢
    have hpost := csvLoop_post oid (fieldNames oid st0) df cols st0 (st1, cs)
      (fun nm hnm => hnm) h
    exact csvLoop_skip oid (fieldNames oid st1) df cols st1 hpost

theorem reconciliation_idempotent_check :
    apply_schema c1Schema c1State1 = .ok (c1State1, []) :=
  reconciliation_idempotent.1 c1Schema c1State0 c1State1
    [GCall.createObject "deal", GCall.createField 0 "amount" "NUMBER"] rfl

/-- C6: the field-listing step used by the schema reconciler returns
exactly the fields whose `objectMetadataId` equals the given object id;
fields of other objects are never consulted. -/
theorem list_fields_only_owned (oid : Nat) (allFields : List RemoteField)
    (f : RemoteField) :
    f ∈ list_fields oid allFields ↔ f ∈ allFields ∧ f.objectMetadataId = oid := by
  simp [list_fields, List.mem_filter]

theorem list_fields_only_owned_check :
    (⟨1, "amount", 5⟩ : RemoteField) ∈ list_fields 5 [⟨1, "amount", 5⟩, ⟨2, "name", 7⟩] :=
  (list_fields_only_owned 5 [⟨1, "amount", 5⟩, ⟨2, "name", 7⟩] ⟨1, "amount", 5⟩).mpr
    (by decide)

/-- C5: for a resolvable object whose `isCustom` is not `True`, the delete
script refuses with a policy error regardless of the `hard` flag and
issues no mutating gateway call. -/
theorem delete_refuses_non_custom (okDelete okPatch : Nat → Bool)
    (objs : List DObject) (n : String) (hard : Bool) (obj : DObject)
    (hfind : find_object n objs = some obj) (hcustom : obj.isCustom ≠ some true) :
    delete_main okDelete okPatch objs n hard = (.refused, []) := by
  simp [delete_main, hfind, hcustom]

theorem delete_refuses_non_custom_check :
    delete_main (fun _ => true) (fun _ => true) [⟨3, "company", some false⟩]
        "company" true = (.refused, []) ∧
    delete_main (fun _ => true) (fun _ => true) [⟨3, "company", some false⟩]
        "company" false = (.refused, []) :=
  ⟨delete_refuses_non_custom _ _ _ _ true ⟨3, "company", some false⟩ (by decide)
      (by decide),
   delete_refuses_non_custom _ _ _ _ false ⟨3, "company", some false⟩ (by decide)
      (by decide)⟩

/-- C7: a row whose external id is missing, null, or empty after trimming
whitespace is rejected with a validation error before any gateway call. -/
theorem upsert_rejects_empty_external_id
    (gw : String → String → String → List RRecord) (np ef : String)
    (row : List (String × Option String))
    (h : rowLookup row ef = none ∨ rowLookup row ef = some none ∨
         pyStrip (extRaw row ef) = "") :
    upsert_record gw np ef row = (.error .badRow, []) := by
  have hext : pyStrip (extRaw row ef) = "" := by
    rcases h with h | h | h
    · have : extRaw row ef = "" := by simp [extRaw, h]
      rw [this]; rfl
    · have : extRaw row ef = "" := by simp [extRaw, h]
      rw [this]; rfl
    · exact h
  simp [upsert_record, hext]

theorem upsert_rejects_empty_external_id_check :
    upsert_record (fun _ _ _ => []) "people" "external_id"
      [("external_id", some "   "), ("name", some "Ada")] = (.error .badRow, []) :=
  upsert_rejects_empty_external_id _ _ _ _ (by decide)

/-- C2: with a non-empty external id, `upsert_record` issues exactly one
update (addressed by the first match's id) and no create when the query
matches; exactly one create and no update when it does not; and a fatal
integrity error with no mutation when the first match carries no usable
id. -/
theorem upsert_branches (gw : String → String → String → List RRecord)
    (np ef : String) (row : List (String × Option String))
    (hext : pyStrip (extRaw row ef) ≠ "") :
    (gw np ef (pyStrip (extRaw row ef)) = [] →
      upsert_record gw np ef row =
        (.ok (), [UCall.query np ef (pyStrip (extRaw row ef)), UCall.createRec row])) ∧
    (∀ r rest i, gw np ef (pyStrip (extRaw row ef)) = r :: rest →
      r.id = some i → i ≠ "" →
      upsert_record gw np ef row =
        (.ok (), [UCall.query np ef (pyStrip (extRaw row ef)), UCall.updateRec i row])) ∧
    (∀ r rest, gw np ef (pyStrip (extRaw row ef)) = r :: rest →
      r.id = none ∨ r.id = some "" →
      upsert_record gw np ef row =
        (.error .noId, [UCall.query np ef (pyStrip (extRaw row ef))])) := by
  refine ⟨fun hq => ?_, fun r rest i hq hid hne => ?_, fun r rest hq hid => ?_⟩
  · simp [upsert_record, hext, hq]
  · simp [upsert_record, hext, hq, hid, hne]
  · rcases hid with hid | hid <;> simp [upsert_record, hext, hq, hid]

theorem upsert_branches_check :
    upsert_record (fun _ _ _ => [⟨some "r1"⟩]) "people" "external_id"
        [("external_id", some "ext-1")] =
      (.ok (), [UCall.query "people" "external_id" "ext-1",
                UCall.updateRec "r1" [("external_id", some "ext-1")]]) ∧
    upsert_record (fun _ _ _ => []) "people" "external_id"
        [("external_id", some "ext-1")] =
      (.ok (), [UCall.query "people" "external_id" "ext-1",
                UCall.createRec [("external_id", some "ext-1")]]) ∧
    upsert_record (fun _ _ _ => [⟨none⟩]) "people" "external_id"
        [("external_id", some "ext-1")] =
      (.error .noId, [UCall.query "people" "external_id" "ext-1"]) := by
  refine ⟨?_, ?_, ?_⟩
  · have h := (upsert_branches (fun _ _ _ => [⟨some "r1"⟩]) "people" "external_id"
      [("external_id", some "ext-1")] (by decide)).2.1 ⟨some "r1"⟩ [] "r1"
    rw [show pyStrip (extRaw [("external_id", some "ext-1")] "external_id") = "ext-1"
      from by decide] at h
    exact h rfl rfl (by decide)
  · have h := (upsert_branches (fun _ _ _ => []) "people" "external_id"
      [("external_id", some "ext-1")] (by decide)).1
    rw [show pyStrip (extRaw [("external_id", some "ext-1")] "external_id") = "ext-1"
      from by decide] at h
    exact h rfl
  · have h := (upsert_branches (fun _ _ _ => [⟨none⟩]) "people" "external_id"
      [("external_id", some "ext-1")] (by decide)).2.2 ⟨none⟩ []
    rw [show pyStrip (extRaw [("external_id", some "ext-1")] "external_id") = "ext-1"
      from by decide] at h
    exact h rfl (Or.inl rfl)

/-- An all-intlike column is all-floatlike: `is_intlike` is a conjunction
whose first conjunct is `is_floatlike`. -/
theorem all_intlike_implies_all_floatlike (s : List String)
    (h : s.all is_intlike = true) : s.all is_floatlike = true := by
  simp only [List.all_eq_true] at h ⊢
  intro x hx
  have hx' := h x hx
  simp only [is_intlike, Bool.and_eq_true] at hx'
  exact hx'.1

/-- C4: type inference follows the priority order empty→TEXT,
all-boolean-vocabulary→BOOLEAN, all-numeric→NUMBER, otherwise TEXT, over
the non-missing values; with the spec's four vector examples. -/
theorem infer_priority_order :
    (∀ (values : List (Option String)) (name : Option String),
       values.filterMap id = [] → infer_twenty_type values name = "TEXT") ∧
    (∀ (values : List (Option String)) (name : Option String),
       values.filterMap id ≠ [] →
       (values.filterMap id).all (fun v => boolVocab.contains (pyLower v)) = true →
       infer_twenty_type values name = "BOOLEAN") ∧
    (∀ (values : List (Option String)) (name : Option String),
       values.filterMap id ≠ [] →
       (values.filterMap id).all (fun v => boolVocab.contains (pyLower v)) = false →
       (values.filterMap id).all is_floatlike = true →
       infer_twenty_type values name = "NUMBER") ∧
    (∀ (values : List (Option String)) (name : Option String),
       values.filterMap id ≠ [] →
       (values.filterMap id).all (fun v => boolVocab.contains (pyLower v)) = false →
       (values.filterMap id).all is_floatlike = false →
       infer_twenty_type values name = "TEXT") ∧
    infer_twenty_type (["true", "false", "yes"].map some) none = "BOOLEAN" ∧
    infer_twenty_type (["1", "2", "3"].map some) none = "NUMBER" ∧
    infer_twenty_type (["1", "2.5", "x"].map some) none = "TEXT" ∧
    infer_twenty_type [] none = "TEXT" ∧
    infer_twenty_type [none, none] none = "TEXT" := by
  refine ⟨fun values name h => ?_, fun values name hne hb => ?_,
    fun values name hne hb hf => ?_, fun values name hne hb hf => ?_,
    by decide, by decide, by decide, by decide, by decide⟩
  · simp [infer_twenty_type, h]
  · cases hcase : values.filterMap id with
    | nil => exact absurd hcase hne
    | cons a l =>
      rw [hcase] at hb
      simp only [infer_twenty_type, hcase, List.isEmpty_cons, hb]
      simp
  · cases hcase : values.filterMap id with
    | nil => exact absurd hcase hne
    | cons a l =>
      rw [hcase] at hb hf
      cases hint : (a :: l).all is_intlike <;>
        · simp only [infer_twenty_type, hcase, List.isEmpty_cons, hb, hf, hint]
          simp
  · cases hcase : values.filterMap id with
    | nil => exact absurd hcase hne
    | cons a l =>
      rw [hcase] at hb hf
      have hint : (a :: l).all is_intlike = false := by
        cases hint : (a :: l).all is_intlike with
        | false => rfl
        | true => rw [all_intlike_implies_all_floatlike _ hint] at hf; exact absurd hf (by simp)
      simp only [infer_twenty_type, hcase, List.isEmpty_cons, hb, hf, hint]
      simp [ite_self]

theorem infer_priority_order_check :
    infer_twenty_type [some "no", some "1"] (some "flag") = "BOOLEAN" :=
  infer_priority_order.2.1 [some "no", some "1"] (some "flag") (by decide) (by decide)

/-- C9: the inferred type never depends on the column's name, because the
name-based branch returns the same result as the default branch. -/
theorem infer_ignores_column_name (values : List (Option String))
    (n₁ n₂ : Option String) :
    infer_twenty_type values n₁ = infer_twenty_type values n₂ := by
  simp only [infer_twenty_type, ite_self]

/-- C3 fails in one direction: the remote store already holds the
word-separated spelling `deal_value`, yet a schema declaring the
camel-style spelling `dealValue` is NOT treated as existing — the
reconciler issues a field-create call and the store ends up with both
spellings. -/
theorem camel_declared_not_matched_against_snake :
    apply_schema c3Schema c3State =
      .ok (c3StateAfter, [GCall.createField 0 "dealValue" "NUMBER"]) ∧
    "deal_value" ∈ fieldNames 0 c3State := by
  constructor
  · rfl
  · decide

/-- C3 (amended): the existence check accepts, for a declared field name,
both the raw spelling and its snake→camel normalization, and creates
nothing when either is present; when neither is present exactly one field
with the camelized name is created.  A camel-style declared name is its
own normal form, so it is compared only against itself (the reverse
snake-matching of the original claim does not hold, see the
counterexample). -/
theorem field_existence_check_directions (oid : Nat) (f : FieldDecl)
    (st : RemoteState) :
    (f.name ∈ fieldNames oid st ∨ camelFieldName f.name ∈ fieldNames oid st →
      ensureFieldsForObject oid [f] st = (st, [])) ∧
    (f.name ∉ fieldNames oid st → camelFieldName f.name ∉ fieldNames oid st →
      ensureFieldsForObject oid [f] st =
        (addField oid (camelFieldName f.name) st,
         [GCall.createField oid (camelFieldName f.name) f.type])) ∧
    (f.name.data.any (fun c => c = '_') = false → camelFieldName f.name = f.name) := by
  refine ⟨fun h => ?_, fun h1 h2 => ?_, fun h => ?_⟩
  · simp [ensureFieldsForObject, ensureFieldsLoop, h]
  · simp [ensureFieldsForObject, ensureFieldsLoop, h1, h2]
  · simp [camelFieldName, h]

theorem field_existence_check_directions_check :
    ensureFieldsForObject 0 [{ name := "deal_value", type := "NUMBER" }] c3State =
      (c3State, []) := by
  have h := (field_existence_check_directions 0
    { name := "deal_value", type := "NUMBER" } c3State).1
  exact h (Or.inl (by decide))

/-- C8: `create_field` tries at most the three payload tiers in order —
built payload, the same without `icon` (skipped as a separate call when no
icon was present, in which case it coincides with the first tier), then
the minimal payload; each later tier only runs after the previous call
failed, the first success is returned, and a minimal-tier failure
propagates. -/
theorem create_field_tiered_fallback (ok : FieldPayload → Bool) (oid : Nat)
    (f : FieldDecl) :
    (ok (tier1 oid f) = true →
      create_field ok oid f = (.ok (tier1 oid f), [tier1 oid f])) ∧
    (ok (tier1 oid f) = false → (tier1 oid f).icon.isSome = true →
      ok (tier2 oid f) = true →
      create_field ok oid f = (.ok (tier2 oid f), [tier1 oid f, tier2 oid f])) ∧
    (ok (tier1 oid f) = false → (tier1 oid f).icon.isSome = true →
      ok (tier2 oid f) = false → ok (tier3 oid f) = true →
      create_field ok oid f =
        (.ok (tier3 oid f), [tier1 oid f, tier2 oid f, tier3 oid f])) ∧
    (ok (tier1 oid f) = false → (tier1 oid f).icon.isSome = true →
      ok (tier2 oid f) = false → ok (tier3 oid f) = false →
      create_field ok oid f =
        (.error (), [tier1 oid f, tier2 oid f, tier3 oid f])) ∧
    (ok (tier1 oid f) = false → (tier1 oid f).icon.isSome = false →
      ok (tier3 oid f) = true →
      create_field ok oid f = (.ok (tier3 oid f), [tier1 oid f, tier3 oid f])) ∧
    (ok (tier1 oid f) = false → (tier1 oid f).icon.isSome = false →
      ok (tier3 oid f) = false →
      create_field ok oid f = (.error (), [tier1 oid f, tier3 oid f])) ∧
    ((tier1 oid f).icon.isSome = false → tier2 oid f = tier1 oid f) ∧
    (create_field ok oid f).2.Sublist [tier1 oid f, tier2 oid f, tier3 oid f] := by
  simp only [tier1, tier2, tier3]
  refine ⟨fun h1 => ?_, fun h1 hi h2 => ?_, fun h1 hi h2 h3 => ?_,
    fun h1 hi h2 h3 => ?_, fun h1 hi h3 => ?_, fun h1 hi h3 => ?_,
    fun hi => ?_, ?_⟩
  · simp [create_field, h1]
  · simp [create_field, h1, hi, h2]
  · simp [create_field, h1, hi, h2, h3]
  · simp [create_field, h1, hi, h2, h3]
  · simp [create_field, h1, hi, h3]
  · simp [create_field, h1, hi, h3]
  · have hnone : (build_payload oid f).icon = none := by
      cases hic : (build_payload oid f).icon with
      | none => rfl
      | some v => rw [hic] at hi; simp at hi
    simp only [payload_without_icon]
    cases hb : build_payload oid f with
    | mk ty o nm lb de nu ic dv se op => rw [hb] at hnone; simp_all
  · cases h1 : ok (build_payload oid f) <;>
      cases hi : (build_payload oid f).icon.isSome <;>
      cases h2 : ok (payload_without_icon (build_payload oid f)) <;>
      cases h3 : ok (minimal_payload oid f) <;>
      simp [create_field, h1, hi, h2, h3]

theorem create_field_tiered_fallback_check :
    create_field (fun _ => false) 7
        { name := "deal_value", type := "NUMBER", icon := some "IconCoin" } =
      (.error (),
       [tier1 7 { name := "deal_value", type := "NUMBER", icon := some "IconCoin" },
        tier2 7 { name := "deal_value", type := "NUMBER", icon := some "IconCoin" },
        tier3 7 { name := "deal_value", type := "NUMBER", icon := some "IconCoin" }]) :=
  (create_field_tiered_fallback (fun _ => false) 7
    { name := "deal_value", type := "NUMBER", icon := some "IconCoin" }).2.2.2.1
    rfl (by decide) rfl rfl

/-! ### Helper lemmas for `slugify` (C10) -/

theorem char_toNat_ofNat_small {n : Nat} (h : n < 55296) : (Char.ofNat n).toNat = n := by
  simp [Char.ofNat, Nat.isValidChar, h, Char.ofNatAux, Char.toNat, UInt32.toNat,
    BitVec.toNat_ofNatLt]

theorem isLowerAlnumDigit_iff (c : Char) :
    isLowerAlnumDigit c = true ↔
      (97 ≤ c.toNat ∧ c.toNat ≤ 122) ∨ (48 ≤ c.toNat ∧ c.toNat ≤ 57) := by
  simp [isLowerAlnumDigit, Bool.or_eq_true, Bool.and_eq_true, decide_eq_true_eq]

theorem isAsciiAlnum_iff (c : Char) :
    isAsciiAlnum c = true ↔
      (97 ≤ c.toNat ∧ c.toNat ≤ 122) ∨ (48 ≤ c.toNat ∧ c.toNat ≤ 57) ∨
        (65 ≤ c.toNat ∧ c.toNat ≤ 90) := by
  simp [isAsciiAlnum, isLowerAlnumDigit, Bool.or_eq_true, Bool.and_eq_true,
    decide_eq_true_eq, or_assoc]

theorem lower_le_alnum {c : Char} (h : isLowerAlnumDigit c = true) :
    isAsciiAlnum c = true := by
  simp [isAsciiAlnum, h]

theorem lower_ne_underscore {c : Char} (h : isLowerAlnumDigit c = true) : c ≠ '_' := by
  rintro rfl
  exact absurd h (by decide)

theorem alnum_not_ws {c : Char} (h : isAsciiAlnum c = true) :
    c.isWhitespace = false := by
  have hn := (isAsciiAlnum_iff c).mp h
  cases hw : c.isWhitespace with
  | false => rfl
  | true =>
    exfalso
    simp only [Char.isWhitespace, Bool.or_eq_true, decide_eq_true_eq] at hw
    rcases hw with ((rfl | rfl) | rfl) | rfl <;> exact absurd hn (by decide)

theorem asciiLower_alnum {c : Char} (h : isAsciiAlnum c = true) :
    isLowerAlnumDigit (asciiLower c) = true := by
  have hn := (isAsciiAlnum_iff c).mp h
  unfold asciiLower
  split
  case isTrue hcond =>
    have h1 : 65 ≤ c.toNat ∧ c.toNat ≤ 90 := by
      simpa [Bool.and_eq_true, decide_eq_true_eq] using hcond
    have e : (Char.ofNat (c.toNat + 32)).toNat = c.toNat + 32 :=
      char_toNat_ofNat_small (by omega)
    rw [isLowerAlnumDigit_iff, e]
    left
    omega
  case isFalse hcond =>
    have h2 : ¬(65 ≤ c.toNat ∧ c.toNat ≤ 90) := by
      simpa [Bool.and_eq_true, decide_eq_true_eq] using hcond
    rw [isLowerAlnumDigit_iff]
    rcases hn with hn | hn | hn
    · exact Or.inl hn
    · exact Or.inr hn
    · exact absurd hn h2

theorem asciiLower_of_not_alnum {c : Char} (h : isAsciiAlnum c = false) :
    asciiLower c = c := by
  unfold asciiLower
  split
  case isTrue hcond =>
    exfalso
    have : isAsciiAlnum c = true := by
      simp [isAsciiAlnum, Bool.or_eq_true]
      simp [Bool.and_eq_true, decide_eq_true_eq] at hcond
      omega
    rw [this] at h
    cases h
  case isFalse hcond => rfl

theorem not_lower_of_not_alnum {c : Char} (h : isAsciiAlnum c = false) :
    isLowerAlnumDigit c = false := by
  cases hl : isLowerAlnumDigit c with
  | false => rfl
  | true => rw [lower_le_alnum hl] at h; cases h

theorem mem_dropWhile_of_not {p : Char → Bool} {c : Char} (hc : p c = false) :
    ∀ {l : List Char}, c ∈ l → c ∈ l.dropWhile p := by
  intro l
  induction l with
  | nil => intro h; cases h
  | cons a l ih =>
    intro h
    rw [List.dropWhile_cons]
    by_cases hpa : p a = true
    · rw [if_pos hpa]
      rcases List.mem_cons.mp h with rfl | h2
      · rw [hpa] at hc; cases hc
      · exact ih h2
    · rw [if_neg hpa]
      exact h

theorem mem_of_mem_dropWhile {p : Char → Bool} {c : Char} {l : List Char}
    (h : c ∈ l.dropWhile p) : c ∈ l := by
  obtain ⟨t, ht⟩ := List.dropWhile_suffix p (l := l)
  rw [← ht]
  exact List.mem_append_right t h

theorem head?_dropWhile_not {p : Char → Bool} :
    ∀ {l : List Char} {a : Char}, (l.dropWhile p).head? = some a → p a = false := by
  intro l
  induction l with
  | nil => intro a h; cases h
  | cons b l ih =>
    intro a h
    rw [List.dropWhile_cons] at h
    by_cases hpb : p b = true
    · rw [if_pos hpb] at h
      exact ih h
    · rw [if_neg hpb] at h
      injection h with h1
      subst h1
      exact Bool.eq_false_iff.mpr hpb

theorem mem_stripWs {c : Char} (hw : c.isWhitespace = false) {l : List Char}
    (h : c ∈ l) : c ∈ stripWsL l := by
  unfold stripWsL
  rw [List.mem_reverse]
  apply mem_dropWhile_of_not hw
  rw [List.mem_reverse]
  exact mem_dropWhile_of_not hw h

theorem mem_of_mem_stripWs {c : Char} {l : List Char} (h : c ∈ stripWsL l) :
    c ∈ l := by
  unfold stripWsL at h
  rw [List.mem_reverse] at h
  have h2 := mem_of_mem_dropWhile h
  rw [List.mem_reverse] at h2
  exact mem_of_mem_dropWhile h2

theorem mem_mapNonAlnum {c : Char} {l : List Char} (h : c ∈ mapNonAlnum l) :
    isLowerAlnumDigit c = true ∨ c = '_' := by
  unfold mapNonAlnum at h
  obtain ⟨d, -, heq⟩ := List.mem_map.mp h
  split at heq
  case isTrue hd => subst heq; exact Or.inl hd
  case isFalse hd => subst heq; exact Or.inr rfl

theorem alnum_mem_mapNonAlnum {c : Char} (hc : isLowerAlnumDigit c = true)
    {l : List Char} (h : c ∈ l) : c ∈ mapNonAlnum l := by
  unfold mapNonAlnum
  exact List.mem_map.mpr ⟨c, h, by rw [if_pos hc]⟩

theorem mem_collapseU {c : Char} : ∀ {l : List Char}, c ∈ collapseU l → c ∈ l := by
  intro l
  induction l using collapseU.induct with
  | case1 => intro h; exact h
  | case2 d => intro h; exact h
  | case3 a b rest hab ih =>
    intro h
    rw [collapseU, if_pos hab] at h
    exact List.mem_cons_of_mem a (ih h)
  | case4 a b rest hab ih =>
    intro h
    rw [collapseU, if_neg hab] at h
    rcases List.mem_cons.mp h with rfl | h2
    · exact List.mem_cons_self _ _
    · exact List.mem_cons_of_mem a (ih h2)

theorem exists_alnum_collapseU :
    ∀ {l : List Char}, (∃ c ∈ l, isLowerAlnumDigit c = true) →
      ∃ c ∈ collapseU l, isLowerAlnumDigit c = true := by
  intro l
  induction l using collapseU.induct with
  | case1 => intro ⟨c, hc, _⟩; cases hc
  | case2 d => intro h; simpa [collapseU] using h
  | case3 a b rest hab ih =>
    intro ⟨c, hc, hcal⟩
    rw [collapseU, if_pos hab]
    apply ih
    rcases List.mem_cons.mp hc with rfl | h2
    · simp only [Bool.and_eq_true, decide_eq_true_eq] at hab
      obtain ⟨ha, -⟩ := hab
      subst ha
      exact absurd hcal (by decide)
    · exact ⟨c, h2, hcal⟩
  | case4 a b rest hab ih =>
    intro ⟨c, hc, hcal⟩
    rw [collapseU, if_neg hab]
    rcases List.mem_cons.mp hc with rfl | h2
    · exact ⟨c, List.mem_cons_self _ _, hcal⟩
    · obtain ⟨d, hd, hdal⟩ := ih ⟨c, h2, hcal⟩
      exact ⟨d, List.mem_cons_of_mem a hd, hdal⟩

theorem head?_collapseU : ∀ (l : List Char), (collapseU l).head? = l.head? := by
  intro l
  induction l using collapseU.induct with
  | case1 => rfl
  | case2 d => rfl
  | case3 a b rest hab ih =>
    rw [collapseU, if_pos hab, ih]
    simp only [Bool.and_eq_true, decide_eq_true_eq] at hab
    obtain ⟨ha, hb⟩ := hab
    subst ha
    subst hb
    rfl
  | case4 a b rest hab ih =>
    rw [collapseU, if_neg hab]
    rfl

theorem chain'_collapseU : ∀ (l : List Char),
    noAdjacentUnderscores (collapseU l) := by
  intro l
  induction l using collapseU.induct with
  | case1 => exact List.chain'_nil
  | case2 d => exact List.chain'_singleton d
  | case3 a b rest hab ih =>
    rw [collapseU, if_pos hab]
    exact ih
  | case4 a b rest hab ih =>
    rw [collapseU, if_neg hab]
    unfold noAdjacentUnderscores at ih ⊢
    rw [List.chain'_cons']
    refine ⟨?_, ih⟩
    intro y hy
    rw [head?_collapseU (b :: rest)] at hy
    simp only [List.head?_cons, Option.mem_def, Option.some.injEq] at hy
    subst hy
    rintro ⟨ha, hb⟩
    exact hab (by simp [ha, hb])

theorem noAdj_dropWhile {p : Char → Bool} {l : List Char}
    (h : noAdjacentUnderscores l) : noAdjacentUnderscores (l.dropWhile p) := by
  obtain ⟨t, ht⟩ := List.dropWhile_suffix p (l := l)
  unfold noAdjacentUnderscores at h ⊢
  rw [← ht] at h
  exact (List.chain'_append.mp h).2.1

theorem noAdj_reverse {l : List Char} (h : noAdjacentUnderscores l) :
    noAdjacentUnderscores l.reverse := by
  unfold noAdjacentUnderscores at h ⊢
  rw [List.chain'_reverse]
  exact List.Chain'.imp (fun a b hab hh => hab ⟨hh.2, hh.1⟩) h

theorem noAdj_trimU {l : List Char} (h : noAdjacentUnderscores l) :
    noAdjacentUnderscores (trimU l) := by
  unfold trimU
  exact noAdj_reverse (noAdj_dropWhile (noAdj_reverse (noAdj_dropWhile h)))

theorem mem_of_mem_trimU {c : Char} {l : List Char} (h : c ∈ trimU l) : c ∈ l := by
  unfold trimU at h
  rw [List.mem_reverse] at h
  have h2 := mem_of_mem_dropWhile h
  rw [List.mem_reverse] at h2
  exact mem_of_mem_dropWhile h2

theorem mem_trimU_of_ne {c : Char} (hne : c ≠ '_') {l : List Char} (h : c ∈ l) :
    c ∈ trimU l := by
  unfold trimU
  rw [List.mem_reverse]
  apply mem_dropWhile_of_not (decide_eq_false hne)
  rw [List.mem_reverse]
  exact mem_dropWhile_of_not (decide_eq_false hne) h

theorem trimU_head_ne {l : List Char} {a : Char} (h : (trimU l).head? = some a) :
    a ≠ '_' := by
  unfold trimU at h
  rw [List.head?_reverse] at h
  have hzne : ((l.dropWhile fun c => c = '_').reverse.dropWhile fun c => c = '_') ≠ [] := by
    intro hz0
    rw [hz0] at h
    cases h
  obtain ⟨t, ht⟩ :=
    List.dropWhile_suffix (l := (l.dropWhile fun c => c = '_').reverse)
      (fun c => decide (c = '_'))
  have hw : ((l.dropWhile fun c => c = '_').reverse).getLast? = some a := by
    rw [← ht, List.getLast?_append_of_ne_nil t hzne]
    exact h
  rw [List.getLast?_reverse] at hw
  exact of_decide_eq_false (head?_dropWhile_not hw)

theorem trimU_getLast_ne {l : List Char} {a : Char}
    (h : (trimU l).getLast? = some a) : a ≠ '_' := by
  unfold trimU at h
  rw [List.getLast?_reverse] at h
  exact of_decide_eq_false (head?_dropWhile_not h)

/-- C10: on input containing an ASCII letter or digit, `slugify` returns a
non-empty string of lowercase letters, digits, and single underscores with
no leading/trailing underscore and a non-digit first character; on input
with no letter or digit it raises `ValueError`. -/
theorem slugify_shape (s : String) :
    ((∃ c ∈ s.data, isAsciiAlnum c = true) →
      ∃ out, slugify s = .ok out ∧ out ≠ "" ∧
        (∀ c ∈ out.data, isLowerAlnumDigit c = true ∨ c = '_') ∧
        noAdjacentUnderscores out.data ∧
        (∀ c, out.data.head? = some c → c ≠ '_' ∧ c.isDigit = false) ∧
        (∀ c, out.data.getLast? = some c → c ≠ '_')) ∧
    ((∀ c ∈ s.data, isAsciiAlnum c = false) → slugify s = .error ()) := by
  constructor
  · rintro ⟨c, hc, hcal⟩
    have h1 : c ∈ stripWsL s.data := mem_stripWs (alnum_not_ws hcal) hc
    have h2 : asciiLower c ∈ (stripWsL s.data).map asciiLower :=
      List.mem_map_of_mem asciiLower h1
    have h3 : isLowerAlnumDigit (asciiLower c) = true := asciiLower_alnum hcal
    have h4 : asciiLower c ∈ mapNonAlnum ((stripWsL s.data).map asciiLower) :=
      alnum_mem_mapNonAlnum h3 h2
    obtain ⟨e, he, heal⟩ :=
      exists_alnum_collapseU (exists_alnum_collapseU ⟨_, h4, h3⟩)
    have h7 : e ∈ slugifyCore s := by
      unfold slugifyCore
      exact mem_trimU_of_ne (lower_ne_underscore heal) he
    have hne0 : slugifyCore s ≠ [] := List.ne_nil_of_mem h7
    have hchars : ∀ x ∈ slugifyCore s, isLowerAlnumDigit x = true ∨ x = '_' := by
      intro x hx
      unfold slugifyCore at hx
      exact mem_mapNonAlnum (mem_collapseU (mem_collapseU (mem_of_mem_trimU hx)))
    have hadj : noAdjacentUnderscores (slugifyCore s) := by
      unfold slugifyCore
      exact noAdj_trimU (chain'_collapseU _)
    have hhead : ∀ x, (slugifyCore s).head? = some x → x ≠ '_' := by
      intro x hx
      unfold slugifyCore at hx
      exact trimU_head_ne hx
    have hlast : ∀ x, (slugifyCore s).getLast? = some x → x ≠ '_' := by
      intro x hx
      unfold slugifyCore at hx
      exact trimU_getLast_ne hx
    cases hsc : slugifyCore s with
    | nil => exact absurd hsc hne0
    | cons c0 rest =>
      rw [hsc] at hchars hadj hhead hlast
      have hc0 : c0 ≠ '_' := hhead c0 rfl
      by_cases hd : c0.isDigit = true
      · have hdata : ("f_" ++ String.mk (c0 :: rest)).data = 'f' :: '_' :: c0 :: rest := by
          simp [String.data_append]
        refine ⟨"f_" ++ String.mk (c0 :: rest), ?_, ?_, ?_, ?_, ?_, ?_⟩
        · simp only [slugify, hsc]
          rw [if_pos hd]
        · intro heq
          have hnil : ("f_" ++ String.mk (c0 :: rest)).data = [] := by rw [heq]
          rw [hdata] at hnil
          cases hnil
        · intro x hx
          rw [hdata] at hx
          rcases List.mem_cons.mp hx with rfl | hx2
          · exact Or.inl (by decide)
          rcases List.mem_cons.mp hx2 with rfl | hx3
          · exact Or.inr rfl
          · exact hchars x hx3
        · unfold noAdjacentUnderscores
          rw [hdata, List.chain'_cons, List.chain'_cons]
          refine ⟨by rintro ⟨hf, -⟩; exact absurd hf (by decide), ?_, hadj⟩
          rintro ⟨-, hcu⟩
          exact hc0 hcu
        · intro x hx
          rw [hdata] at hx
          injection hx with h1
          subst h1
          exact ⟨by decide, by decide⟩
        · intro x hx
          rw [hdata, List.getLast?_cons_cons, List.getLast?_cons_cons] at hx
          exact hlast x hx
      · refine ⟨String.mk (c0 :: rest), ?_, ?_, ?_, ?_, ?_, ?_⟩
        · simp only [slugify, hsc]
          rw [if_neg hd]
        · intro heq
          have hnil : (String.mk (c0 :: rest)).data = [] := by rw [heq]
          exact List.cons_ne_nil c0 rest hnil
        · exact hchars
        · exact hadj
        · intro x hx
          injection hx with h1
          subst h1
          exact ⟨hc0, Bool.eq_false_iff.mpr hd⟩
        · exact hlast
  · intro h
    have hall : ∀ x ∈ mapNonAlnum ((stripWsL s.data).map asciiLower), x = '_' := by
      intro x hx
      unfold mapNonAlnum at hx
      obtain ⟨d0, hd0, heq⟩ := List.mem_map.mp hx
      obtain ⟨e, he, rfl⟩ := List.mem_map.mp hd0
      have hea : isAsciiAlnum e = false := h e (mem_of_mem_stripWs he)
      rw [asciiLower_of_not_alnum hea] at heq
      rw [if_neg (by rw [not_lower_of_not_alnum hea]; exact Bool.false_ne_true)] at heq
      exact heq.symm
    have hall2 : ∀ x ∈
        collapseU (collapseU (mapNonAlnum ((stripWsL s.data).map asciiLower))),
        x = '_' :=
      fun x hx => hall x (mem_collapseU (mem_collapseU hx))
    have hdw : (collapseU (collapseU
        (mapNonAlnum ((stripWsL s.data).map asciiLower)))).dropWhile
          (fun c => decide (c = '_')) = [] :=
      List.dropWhile_eq_nil_iff.mpr fun x hx => by simp [hall2 x hx]
    have hnil : slugifyCore s = [] := by
      unfold slugifyCore trimU
      rw [hdw]
      rfl
    simp only [slugify, hnil]

theorem slugify_shape_check :
    ∃ out, slugify "Deal Value!" = .ok out ∧ out ≠ "" ∧
      (∀ c ∈ out.data, isLowerAlnumDigit c = true ∨ c = '_') ∧
      noAdjacentUnderscores out.data ∧
      (∀ c, out.data.head? = some c → c ≠ '_' ∧ c.isDigit = false) ∧
      (∀ c, out.data.getLast? = some c → c ≠ '_') :=
  (slugify_shape "Deal Value!").1 (by decide)

end Twenty
